import Mathlib

/-!
Shallow embedding of the MtA (multiplicative-to-additive) share-conversion core
found in src/gg_2018/mta.rs of the tss-wasm repository.

The core itself is the four operations of the MessageA and MessageB types.
Its collaborators (the Paillier cryptosystem, the secp256k1 curve, the Alice
range-proof scheme and the knowledge-of-exponent proof scheme) live outside
the given sources and are modelled from the specification, through the
interfaces of section 6 of the spec.

Representation choices:
  - big integers (BigInt) are natural numbers;
  - curve scalars (Secp256k1Scalar, FE) are natural numbers intended below
    the curve order q, with reductions written explicitly as % q;
  - curve points (Secp256k1Point, GE) are represented by their discrete
    logarithm with respect to the generator, i.e. by an exponent modulo q:
    the spec describes the group as the prime-order cyclic group generated
    by g, and every such group is isomorphic to the additive group of
    integers modulo q, so point addition is exponent addition mod q and
    scalar multiplication is exponent multiplication mod q.
-/

namespace Mta

/-- The order of the secp256k1 group, i.e. the scalar-field modulus q. -/
def q : ℕ := 115792089237316195423570985008687907852837564279074904382605163141518161494337

theorem q_pos : 0 < q := by decide

/-- Modelled from the spec: scalar-field reduction. Embeds ECScalar::from,
which reduces an arbitrary big integer into the scalar field of the curve. -/
def ECScalar.ofBigInt (n : ℕ) : ℕ := n % q

/-- Modelled from the spec: field subtraction of curve scalars, as used in
FE::zero().sub(x); the difference is taken in the scalar field modulo q. -/
def FE.sub (a b : ℕ) : ℕ := (a + (q - b % q)) % q

/-- Modelled from the spec: the curve generator g, in exponent representation. -/
def GE.generator : ℕ := 1

/-- Modelled from the spec: scalar multiplication of a curve point, in exponent
representation: the exponent is multiplied by the scalar modulo q. -/
def GE.mulScalar (p s : ℕ) : ℕ := (p * s) % q

/-- Modelled from the spec: the curve group operation, in exponent
representation: exponents add modulo q. -/
def GE.add (p1 p2 : ℕ) : ℕ := (p1 + p2) % q

/-- Modelled from the spec: the canonical encoding of a point
(Secp256k1Point::get_element). The exponent representation is already
canonical, so the encoding is the identity. -/
def GE.get_element (p : ℕ) : ℕ := p

/-- Paillier public encryption key: its modulus n. The keypair is consumed
as an opaque capability (spec section 1), so only the modulus is kept. -/
structure EncryptionKey where
  n : ℕ
deriving DecidableEq

/-- Paillier private decryption key, reduced to the modulus it decrypts for. -/
structure DecryptionKey where
  n : ℕ
deriving DecidableEq

/-- Modelled from the spec: Paillier encryption with chosen randomness
(crate::paillier, outside the given sources). Ciphertexts are modelled by the
residue of their plaintext modulo the key modulus n; the spec consumes the
scheme only through the contracts of section 6 (decrypt of encrypt reduces
the plaintext mod n, homomorphic add adds plaintexts, homomorphic scalar
multiply multiplies them), which this residue model satisfies. The blinding
randomness does not influence the plaintext residue. -/
def Paillier.encrypt_with_chosen_randomness (ek : EncryptionKey) (m r : ℕ) : ℕ :=
  m % ek.n

/-- Modelled from the spec: Paillier decryption, recovering the plaintext
residue modulo the key modulus. -/
def Paillier.decrypt (dk : DecryptionKey) (c : ℕ) : ℕ :=
  c % dk.n

/-- Modelled from the spec: homomorphic multiplication of a ciphertext by a
known plaintext scalar, multiplying the underlying plaintext modulo n. -/
def Paillier.mul (ek : EncryptionKey) (c s : ℕ) : ℕ :=
  (c * s) % ek.n

/-- Modelled from the spec: homomorphic addition of two ciphertexts, adding
the underlying plaintexts modulo n. -/
def Paillier.add (ek : EncryptionKey) (c1 c2 : ℕ) : ℕ :=
  (c1 + c2) % ek.n

/-- Range-proof statement: the public parameters (two generators and a
modulus) a verifier checks a range proof against (spec section 3). -/
structure DLogStatement where
  g : ℕ
  ni : ℕ
  N_tilde : ℕ
deriving DecidableEq

/-- Modelled from the spec: a zero-knowledge range proof
(crate::gg_2018::range_proofs::AliceProof, outside the given sources). A proof
is bound to one ciphertext, one encryption key and one statement (spec
section 3); the model records those bindings together with a validity bit so
that forged or mismatched proofs can be represented. -/
structure AliceProof where
  cipher : ℕ
  ekn : ℕ
  statement : DLogStatement
  valid : Bool
deriving DecidableEq

/-- Modelled from the spec: range-proof generation,
generate(secret, ciphertext, key, statement, randomness) -> proof; a function
of its explicit arguments (spec section 6), producing a proof that verifies
against the ciphertext, key and statement it was generated for. -/
def AliceProof.generate (secret c : ℕ) (ek : EncryptionKey) (st : DLogStatement)
    (r : ℕ) : AliceProof :=
  { cipher := c, ekn := ek.n, statement := st, valid := true }

/-- Modelled from the spec: range-proof verification,
verify(proof, ciphertext, key, statement) -> bool; accepts exactly the proofs
bound to this ciphertext, key and statement that are valid. -/
def AliceProof.verify (p : AliceProof) (c : ℕ) (ek : EncryptionKey)
    (st : DLogStatement) : Bool :=
  decide (p.cipher = c ∧ p.ekn = ek.n ∧ p.statement = st ∧ p.valid = true)

/-- Modelled from the spec: a knowledge-of-exponent proof
(crate::curv sigma_dlog::DLogProof, outside the given sources). It carries the
public commitment point pk (spec section 3) and a validity bit so that forged
proofs can be represented. -/
structure DLogProof where
  pk : ℕ
  valid : Bool
deriving DecidableEq

/-- Modelled from the spec: knowledge-of-exponent proving, prove(x) ->
proof carrying the public commitment generator^x; honestly generated proofs
verify. -/
def DLogProof.prove (x : ℕ) : DLogProof :=
  { pk := GE.mulScalar GE.generator x, valid := true }

/-- Modelled from the spec: knowledge-of-exponent verification; a function of
the proof alone (spec section 6). -/
def DLogProof.verify (p : DLogProof) : Bool :=
  p.valid

/-- The single error kind of the core: crate::Error::InvalidKey, used for
every rejection (spec section 7). -/
inductive Error where
  | InvalidKey
deriving DecidableEq

/-- Message A: the Paillier encryption of the initiator scalar together with
one range proof per statement. Embeds struct MessageA of mta.rs. -/
structure MessageA where
  c : ℕ
  range_proofs : List AliceProof
deriving DecidableEq

/-- Message B: the homomorphically combined ciphertext together with the two
knowledge-of-exponent proofs. Embeds struct MessageB of mta.rs. -/
structure MessageB where
  c : ℕ
  b_proof : DLogProof
  beta_tag_proof : DLogProof
deriving DecidableEq

/-- Embeds MessageA::a_with_predefined_randomness (mta.rs lines 58 to 83):
encrypt the scalar a under the key of A with the given randomness and
generate one range proof per statement, in statement order. The Rust function
has no error return; the embedding is correspondingly total. -/
def MessageA.a_with_predefined_randomness (a : ℕ) (alice_ek : EncryptionKey)
    (randomness : ℕ) (dlog_statements : List DLogStatement) : MessageA :=
  let c_a := Paillier.encrypt_with_chosen_randomness alice_ek a randomness
  { c := c_a
    range_proofs := dlog_statements.map fun dlog_statement =>
      AliceProof.generate a c_a alice_ek dlog_statement randomness }

/-- Embeds MessageB::b_with_predefined_randomness (mta.rs lines 107 to 154):
check the proof count against the statement count, verify every range proof
of Message A, then homomorphically form Enc(a*b + beta_tag), derive the local
share beta as the field negation of the reduced beta_tag, and prove knowledge
of b and of the reduced beta_tag. -/
def MessageB.b_with_predefined_randomness (b : ℕ) (alice_ek : EncryptionKey)
    (m_a : MessageA) (randomness : ℕ) (beta_tag : ℕ)
    (dlog_statements : List DLogStatement) : Except Error (MessageB × ℕ) :=
  if m_a.range_proofs.length ≠ dlog_statements.length then
    .error .InvalidKey
  else if ¬ ((m_a.range_proofs.zip dlog_statements).all fun pr =>
      AliceProof.verify pr.1 m_a.c alice_ek pr.2) then
    .error .InvalidKey
  else
    let beta_tag_fe := ECScalar.ofBigInt beta_tag
    let c_beta_tag := Paillier.encrypt_with_chosen_randomness alice_ek beta_tag randomness
    let b_c_a := Paillier.mul alice_ek m_a.c b
    let c_b := Paillier.add alice_ek b_c_a c_beta_tag
    let beta := FE.sub 0 beta_tag_fe
    .ok
      ({ c := c_b
         b_proof := DLogProof.prove b
         beta_tag_proof := DLogProof.prove beta_tag_fe },
       beta)

/-- Embeds MessageB::verify_proofs_get_alpha (mta.rs lines 156 to 173):
decrypt the ciphertext, reduce the plaintext into the scalar field, verify
both knowledge-of-exponent proofs and the group equation
pk_b^a * pk_beta_tag = g^alpha, and on success return alpha together with
the raw decrypted integer. -/
def MessageB.verify_proofs_get_alpha (m_b : MessageB) (dk : DecryptionKey)
    (a : ℕ) : Except Error (ℕ × ℕ) :=
  let alice_share := Paillier.decrypt dk m_b.c
  let alpha := ECScalar.ofBigInt alice_share
  let g_alpha := GE.mulScalar GE.generator alpha
  let ba_btag := GE.add (GE.mulScalar m_b.b_proof.pk a) m_b.beta_tag_proof.pk
  if DLogProof.verify m_b.b_proof = true ∧ DLogProof.verify m_b.beta_tag_proof = true ∧
      ba_btag = g_alpha then
    .ok (alpha, alice_share)
  else
    .error .InvalidKey

/-- Modelled from the spec: the abstract decryption capability
(crate::gg_2018::party_i::PartyPrivate, outside the given sources) used by the
gg18 variant of the share extractor; it keeps key material behind an
indirection layer and exposes only a decrypt operation. -/
structure PartyPrivate where
  dec : ℕ → ℕ

/-- Embeds MessageB::verify_proofs_get_alpha_gg18 (mta.rs lines 177 to 195):
identical cryptographic logic to verify_proofs_get_alpha, but decryption goes
through the PartyPrivate capability, the group equation is compared on
canonical encodings, and only alpha is returned. -/
def MessageB.verify_proofs_get_alpha_gg18 (m_b : MessageB) (pp : PartyPrivate)
    (a : ℕ) : Except Error ℕ :=
  let alice_share := pp.dec m_b.c
  let alpha := ECScalar.ofBigInt alice_share
  let g_alpha := GE.mulScalar GE.generator alpha
  let ba_btag := GE.add (GE.mulScalar m_b.b_proof.pk a) m_b.beta_tag_proof.pk
  if DLogProof.verify m_b.b_proof = true ∧ DLogProof.verify m_b.beta_tag_proof = true ∧
      GE.get_element ba_btag = GE.get_element g_alpha then
    .ok alpha
  else
    .error .InvalidKey

/-- Embeds MessageB::verify_b_against_public (mta.rs lines 197 to 199):
compare the canonical encodings of the two commitment points. -/
def MessageB.verify_b_against_public (public_gb mta_gb : ℕ) : Bool :=
  decide (GE.get_element public_gb = GE.get_element mta_gb)

/-- Honestly generated range proofs all verify: zipping the proofs produced by
AliceProof.generate over a statement list with that same list yields pairs
that every verification accepts. -/
theorem honest_zip_all (a r c : ℕ) (ek : EncryptionKey)
    (stmts : List DLogStatement) :
    (((stmts.map fun st => AliceProof.generate a c ek st r).zip stmts).all fun pr =>
      AliceProof.verify pr.1 c ek pr.2) = true := by
  induction stmts with
  | nil => rfl
  | cons st tl ih =>
    simpa [AliceProof.generate, AliceProof.verify] using ih

/-- C10: when the statement list is empty and Message A carries zero range
proofs, MessageB.b_with_predefined_randomness succeeds for every Message A
ciphertext: the length check passes and the verification conjunction is
vacuously true, so no range bound on the plaintext of A is ever checked. -/
theorem b_with_empty_statements_succeeds (b r bt c : ℕ) (ek : EncryptionKey) :
    ∃ m_b beta,
      MessageB.b_with_predefined_randomness b ek (MessageA.mk c []) r bt []
        = Except.ok (m_b, beta) :=
  ⟨_, _, rfl⟩

/-- C6: verify_b_against_public returns true exactly when the canonical
encodings of the two commitment points are equal; by its type it is a
function of the two points alone, independent of any other exchange data. -/
theorem verify_b_against_public_iff_eq (public_gb mta_gb : ℕ) :
    MessageB.verify_b_against_public public_gb mta_gb = true ↔
      GE.get_element public_gb = GE.get_element mta_gb := by
  simp [MessageB.verify_b_against_public]

/-- Witness for C6 at the concrete pair of equal points 7 and 7. -/
theorem verify_b_against_public_iff_eq_witness :
    MessageB.verify_b_against_public 7 7 = true :=
  (verify_b_against_public_iff_eq 7 7).mpr rfl

/-- C7: MessageA.a_with_predefined_randomness is total (the embedded Rust
function has no error return and no panicking operation), and the produced
Message A carries exactly one range proof per supplied statement, in
statement order: the proof list has the length of the statement list and its
i-th entry is the proof generated from the i-th statement. -/
theorem a_with_predefined_randomness_proofs (a r : ℕ) (ek : EncryptionKey)
    (stmts : List DLogStatement) :
    (MessageA.a_with_predefined_randomness a ek r stmts).range_proofs.length
        = stmts.length ∧
    ∀ i : ℕ,
      (MessageA.a_with_predefined_randomness a ek r stmts).range_proofs[i]? =
        (stmts[i]?).map fun st =>
          AliceProof.generate a
            (MessageA.a_with_predefined_randomness a ek r stmts).c ek st r := by
  constructor
  · simp [MessageA.a_with_predefined_randomness]
  · intro i
    simp [MessageA.a_with_predefined_randomness]

/-- C8: the predefined-randomness entry points are deterministic: two calls
with identical inputs produce identical Message A structures (in particular
identical ciphertexts), and identical Message B results (in particular
identical ciphertexts and identical beta values). -/
theorem predefined_randomness_deterministic
    (a1 a2 r1 r2 : ℕ) (ek1 ek2 : EncryptionKey) (s1 s2 : List DLogStatement)
    (b1 b2 rr1 rr2 bt1 bt2 : ℕ) (ma1 ma2 : MessageA)
    (ha : a1 = a2) (hr : r1 = r2) (hek : ek1 = ek2) (hs : s1 = s2)
    (hb : b1 = b2) (hrr : rr1 = rr2) (hbt : bt1 = bt2) (hma : ma1 = ma2) :
    MessageA.a_with_predefined_randomness a1 ek1 r1 s1
        = MessageA.a_with_predefined_randomness a2 ek2 r2 s2 ∧
    MessageB.b_with_predefined_randomness b1 ek1 ma1 rr1 bt1 s1
        = MessageB.b_with_predefined_randomness b2 ek2 ma2 rr2 bt2 s2 := by
  subst ha hr hek hs hb hrr hbt hma
  exact ⟨rfl, rfl⟩

/-- Witness for C8 at concrete identical inputs. -/
theorem predefined_randomness_deterministic_witness :
    MessageA.a_with_predefined_randomness 3 (EncryptionKey.mk 35) 2 []
        = MessageA.a_with_predefined_randomness 3 (EncryptionKey.mk 35) 2 [] ∧
    MessageB.b_with_predefined_randomness 5 (EncryptionKey.mk 35)
          (MessageA.mk 3 []) 2 4 []
        = MessageB.b_with_predefined_randomness 5 (EncryptionKey.mk 35)
          (MessageA.mk 3 []) 2 4 [] :=
  predefined_randomness_deterministic 3 3 2 2 (EncryptionKey.mk 35)
    (EncryptionKey.mk 35) [] [] 5 5 2 2 4 4 (MessageA.mk 3 []) (MessageA.mk 3 [])
    rfl rfl rfl rfl rfl rfl rfl rfl

/-- C2: verify_proofs_get_alpha returns Ok exactly when both embedded
knowledge-of-exponent proofs verify and the group equation
pk_b^a * pk_beta_tag = g^alpha holds, alpha being the decrypted plaintext
reduced mod q; on success it returns alpha together with the raw decrypted
integer, and otherwise it fails with the generic invalid-key error. -/
theorem verify_proofs_get_alpha_characterization (m_b : MessageB)
    (dk : DecryptionKey) (a : ℕ) :
    ((∃ res, MessageB.verify_proofs_get_alpha m_b dk a = Except.ok res) ↔
      (DLogProof.verify m_b.b_proof = true ∧
        DLogProof.verify m_b.beta_tag_proof = true ∧
        GE.add (GE.mulScalar m_b.b_proof.pk a) m_b.beta_tag_proof.pk =
          GE.mulScalar GE.generator (ECScalar.ofBigInt (Paillier.decrypt dk m_b.c)))) ∧
    (∀ res, MessageB.verify_proofs_get_alpha m_b dk a = Except.ok res →
      res = (ECScalar.ofBigInt (Paillier.decrypt dk m_b.c), Paillier.decrypt dk m_b.c)) ∧
    (¬ (DLogProof.verify m_b.b_proof = true ∧
        DLogProof.verify m_b.beta_tag_proof = true ∧
        GE.add (GE.mulScalar m_b.b_proof.pk a) m_b.beta_tag_proof.pk =
          GE.mulScalar GE.generator (ECScalar.ofBigInt (Paillier.decrypt dk m_b.c))) →
      MessageB.verify_proofs_get_alpha m_b dk a = Except.error Error.InvalidKey) := by
  by_cases h : DLogProof.verify m_b.b_proof = true ∧
      DLogProof.verify m_b.beta_tag_proof = true ∧
      GE.add (GE.mulScalar m_b.b_proof.pk a) m_b.beta_tag_proof.pk =
        GE.mulScalar GE.generator (ECScalar.ofBigInt (Paillier.decrypt dk m_b.c))
  · simp [MessageB.verify_proofs_get_alpha, h]
  · simp [MessageB.verify_proofs_get_alpha, h]

/-- Witness for C2 at a concrete Message B whose group equation fails: the
extractor rejects with the invalid-key error. -/
theorem verify_proofs_get_alpha_characterization_witness :
    MessageB.verify_proofs_get_alpha
        (MessageB.mk 0 (DLogProof.mk 1 true) (DLogProof.mk 1 true))
        (DecryptionKey.mk 5) 1 = Except.error Error.InvalidKey :=
  (verify_proofs_get_alpha_characterization
    (MessageB.mk 0 (DLogProof.mk 1 true) (DLogProof.mk 1 true))
    (DecryptionKey.mk 5) 1).2.2 (by decide)

/-- C3: b_with_predefined_randomness fails with the single invalid-key error
exactly when the proof count of Message A differs from the statement count or
some zipped proof and statement pair fails range-proof verification against
the ciphertext of Message A and the key of A; a length mismatch yields the
error whatever the proofs contain, and acceptance is all-or-nothing: when the
lengths agree and every pair verifies, the call returns a full result. -/
theorem b_with_rejects_iff (b r bt : ℕ) (ek : EncryptionKey) (m_a : MessageA)
    (stmts : List DLogStatement) :
    (MessageB.b_with_predefined_randomness b ek m_a r bt stmts
        = Except.error Error.InvalidKey ↔
      (m_a.range_proofs.length ≠ stmts.length ∨
        ∃ pr ∈ m_a.range_proofs.zip stmts,
          AliceProof.verify pr.1 m_a.c ek pr.2 = false)) ∧
    ((m_a.range_proofs.length = stmts.length ∧
        ∀ pr ∈ m_a.range_proofs.zip stmts,
          AliceProof.verify pr.1 m_a.c ek pr.2 = true) →
      ∃ m_b beta, MessageB.b_with_predefined_randomness b ek m_a r bt stmts
        = Except.ok (m_b, beta)) := by
  by_cases hlen : m_a.range_proofs.length = stmts.length
  · by_cases hall : ((m_a.range_proofs.zip stmts).all fun pr =>
        AliceProof.verify pr.1 m_a.c ek pr.2) = true
    · have hok : MessageB.b_with_predefined_randomness b ek m_a r bt stmts
          = Except.ok
            (MessageB.mk
              (Paillier.add ek (Paillier.mul ek m_a.c b)
                (Paillier.encrypt_with_chosen_randomness ek bt r))
              (DLogProof.prove b) (DLogProof.prove (ECScalar.ofBigInt bt)),
             FE.sub 0 (ECScalar.ofBigInt bt)) := by
        unfold MessageB.b_with_predefined_randomness
        rw [if_neg (by simp [hlen]), if_neg (by simp [hall])]
      refine ⟨⟨fun herr => ?_, fun hbad => ?_⟩, fun _ => ⟨_, _, hok⟩⟩
      · rw [hok] at herr
        exact absurd herr (by simp)
      · exfalso
        rcases hbad with hne | ⟨pr, hpr, hfail⟩
        · exact hne hlen
        · have hpass := (List.all_eq_true.mp hall) pr hpr
          rw [hfail] at hpass
          exact Bool.false_ne_true hpass
    · have herr2 : MessageB.b_with_predefined_randomness b ek m_a r bt stmts
          = Except.error Error.InvalidKey := by
        unfold MessageB.b_with_predefined_randomness
        rw [if_neg (by simp [hlen]), if_pos hall]
      refine ⟨⟨fun _ => Or.inr ?_, fun _ => herr2⟩, fun hc => absurd ?_ hall⟩
      · have hnot : ¬ ∀ pr ∈ m_a.range_proofs.zip stmts,
            AliceProof.verify pr.1 m_a.c ek pr.2 = true :=
          fun hforall => hall (List.all_eq_true.mpr hforall)
        push_neg at hnot
        rcases hnot with ⟨pr, hpr, hne⟩
        exact ⟨pr, hpr, by simpa using hne⟩
      · exact List.all_eq_true.mpr hc.2
  · have herr1 : MessageB.b_with_predefined_randomness b ek m_a r bt stmts
        = Except.error Error.InvalidKey := by
      unfold MessageB.b_with_predefined_randomness
      rw [if_pos hlen]
    exact ⟨⟨fun _ => Or.inl hlen, fun _ => herr1⟩, fun hc => absurd hc.1 hlen⟩

/-- Witness for C3 at a concrete length mismatch: zero proofs against one
statement is rejected with the invalid-key error. -/
theorem b_with_rejects_iff_witness :
    MessageB.b_with_predefined_randomness 1 (EncryptionKey.mk 5) (MessageA.mk 0 [])
        0 0 [DLogStatement.mk 1 1 1] = Except.error Error.InvalidKey :=
  (b_with_rejects_iff 1 0 0 (EncryptionKey.mk 5) (MessageA.mk 0 [])
    [DLogStatement.mk 1 1 1]).1.mpr (Or.inl (by decide))

/-- C4: whenever b_with_predefined_randomness accepts, the returned local
share beta is the field negation of beta_tag reduced into the scalar field,
beta = 0 - (beta_tag mod q) computed mod q, and the knowledge-of-exponent
proof for beta_tag is generated over the same field-reduced value. -/
theorem beta_is_field_negation (b r bt : ℕ) (ek : EncryptionKey)
    (m_a : MessageA) (stmts : List DLogStatement) (m_b : MessageB) (beta : ℕ)
    (h : MessageB.b_with_predefined_randomness b ek m_a r bt stmts
        = Except.ok (m_b, beta)) :
    beta = FE.sub 0 (bt % q) ∧ m_b.beta_tag_proof = DLogProof.prove (bt % q) := by
  unfold MessageB.b_with_predefined_randomness at h
  split_ifs at h
  simp only [Except.ok.injEq, Prod.mk.injEq] at h
  obtain ⟨hm, hb⟩ := h
  subst hm
  subst hb
  exact ⟨rfl, rfl⟩

/-- Witness for C4 at a concrete accepted call with beta_tag 7. -/
theorem beta_is_field_negation_witness :
    (q - 7 : ℕ) = FE.sub 0 (7 % q) ∧
    (MessageB.mk 4 (DLogProof.mk 2 true) (DLogProof.mk 7 true)).beta_tag_proof
      = DLogProof.prove (7 % q) :=
  beta_is_field_negation 2 1 7 (EncryptionKey.mk 9) (MessageA.mk 3 []) []
    (MessageB.mk 4 (DLogProof.mk 2 true) (DLogProof.mk 7 true)) (q - 7) (by rfl)

/-- C5: for an honest exchange, the ciphertext carried in Message B decrypts
under the private key of A (sharing the modulus of the encryption key) to
a * b + beta_tag reduced modulo the encryption modulus. -/
theorem message_b_ciphertext_decrypts (a b r1 r2 bt : ℕ) (ek : EncryptionKey)
    (dk : DecryptionKey) (stmts : List DLogStatement) (m_b : MessageB)
    (beta : ℕ) (hk : dk.n = ek.n)
    (h : MessageB.b_with_predefined_randomness b ek
        (MessageA.a_with_predefined_randomness a ek r1 stmts) r2 bt stmts
        = Except.ok (m_b, beta)) :
    Paillier.decrypt dk m_b.c = (a * b + bt) % ek.n := by
  unfold MessageB.b_with_predefined_randomness at h
  split_ifs at h
  simp only [Except.ok.injEq, Prod.mk.injEq] at h
  obtain ⟨hm, hb⟩ := h
  subst hm
  simp only [MessageA.a_with_predefined_randomness,
    Paillier.encrypt_with_chosen_randomness, Paillier.mul, Paillier.add,
    Paillier.decrypt, hk]
  rw [Nat.mod_mod_of_dvd _ dvd_rfl, Nat.mod_mul_mod, ← Nat.add_mod]

/-- Witness for C5: a pinned honest exchange under the toy modulus 9, scalars
a = 2 and b = 3 and blinding value 4, whose Message B ciphertext decrypts to
2 * 3 + 4 reduced mod 9. -/
theorem message_b_ciphertext_decrypts_witness :
    Paillier.decrypt (DecryptionKey.mk 9)
        (MessageB.mk 1 (DLogProof.mk 3 true) (DLogProof.mk 4 true)).c
      = (2 * 3 + 4) % (EncryptionKey.mk 9).n :=
  message_b_ciphertext_decrypts 2 3 1 1 4 (EncryptionKey.mk 9)
    (DecryptionKey.mk 9) [] (MessageB.mk 1 (DLogProof.mk 3 true) (DLogProof.mk 4 true))
    (q - 4) rfl (by rfl)

/-- C9: the two share-extraction entry points are equivalent: whenever the
abstract decryption capability decrypts the Message B ciphertext to the same
plaintext as the raw decryption key, the gg18 variant returns exactly the
first component of the raw-key variant, so both succeed or fail together and
the returned alpha values agree. -/
theorem share_extractors_agree (m_b : MessageB) (dk : DecryptionKey)
    (pp : PartyPrivate) (a : ℕ)
    (h : pp.dec m_b.c = Paillier.decrypt dk m_b.c) :
    MessageB.verify_proofs_get_alpha_gg18 m_b pp a
      = (MessageB.verify_proofs_get_alpha m_b dk a).map Prod.fst := by
  unfold MessageB.verify_proofs_get_alpha_gg18 MessageB.verify_proofs_get_alpha
  rw [h]
  by_cases hc : DLogProof.verify m_b.b_proof = true ∧
      DLogProof.verify m_b.beta_tag_proof = true ∧
      GE.add (GE.mulScalar m_b.b_proof.pk a) m_b.beta_tag_proof.pk =
        GE.mulScalar GE.generator (ECScalar.ofBigInt (Paillier.decrypt dk m_b.c))
  · simp [GE.get_element, hc, Except.map]
  · simp [GE.get_element, hc, Except.map]

/-- Witness for C9: a concrete Message B, a raw key of modulus 5 and a
capability decrypting mod 5 agree on the extraction result. -/
theorem share_extractors_agree_witness :
    MessageB.verify_proofs_get_alpha_gg18
        (MessageB.mk 3 (DLogProof.mk 1 true) (DLogProof.mk 1 true))
        (PartyPrivate.mk fun c => c % 5) 0
      = (MessageB.verify_proofs_get_alpha
          (MessageB.mk 3 (DLogProof.mk 1 true) (DLogProof.mk 1 true))
          (DecryptionKey.mk 5) 0).map Prod.fst :=
  share_extractors_agree
    (MessageB.mk 3 (DLogProof.mk 1 true) (DLogProof.mk 1 true))
    (DecryptionKey.mk 5) (PartyPrivate.mk fun c => c % 5) 0 rfl

/-- C1 (amended): for valid scalars a and b below the curve order, a keypair
whose common modulus exceeds the curve order, and any statements and
randomness for which a * b + beta_tag stays below the encryption modulus (so
the homomorphic combination does not wrap), the honest exchange succeeds and
the two additive shares satisfy alpha + beta = a * b modulo q. -/
theorem mta_honest_exchange_correct (a b r1 r2 bt : ℕ) (ek : EncryptionKey)
    (dk : DecryptionKey) (stmts : List DLogStatement)
    (ha : a < q) (hb : b < q) (hq : q < ek.n) (hk : dk.n = ek.n)
    (hnw : a * b + bt < ek.n) :
    ∃ m_b beta alpha share,
      MessageB.b_with_predefined_randomness b ek
          (MessageA.a_with_predefined_randomness a ek r1 stmts) r2 bt stmts
        = Except.ok (m_b, beta) ∧
      MessageB.verify_proofs_get_alpha m_b dk a = Except.ok (alpha, share) ∧
      (alpha + beta) % q = (a * b) % q := by
  have hca : Paillier.encrypt_with_chosen_randomness ek a r1 = a :=
    Nat.mod_eq_of_lt (lt_trans ha hq)
  have hcb : Paillier.add ek (Paillier.mul ek a b)
      (Paillier.encrypt_with_chosen_randomness ek bt r2) = a * b + bt := by
    unfold Paillier.add Paillier.mul Paillier.encrypt_with_chosen_randomness
    rw [Nat.mod_eq_of_lt (lt_of_le_of_lt (Nat.le_add_right _ _) hnw),
      Nat.mod_eq_of_lt (lt_of_le_of_lt (Nat.le_add_left _ _) hnw),
      Nat.mod_eq_of_lt hnw]
  have hall : (((MessageA.a_with_predefined_randomness a ek r1 stmts).range_proofs.zip
        stmts).all fun pr =>
      AliceProof.verify pr.1 (MessageA.a_with_predefined_randomness a ek r1 stmts).c
        ek pr.2) = true := by
    show (((stmts.map fun st =>
        AliceProof.generate a (Paillier.encrypt_with_chosen_randomness ek a r1)
          ek st r1).zip stmts).all fun pr =>
      AliceProof.verify pr.1 (Paillier.encrypt_with_chosen_randomness ek a r1)
        ek pr.2) = true
    exact honest_zip_all a r1 _ ek stmts
  have hok : MessageB.b_with_predefined_randomness b ek
      (MessageA.a_with_predefined_randomness a ek r1 stmts) r2 bt stmts
      = Except.ok (MessageB.mk (a * b + bt) (DLogProof.prove b)
          (DLogProof.prove (bt % q)), FE.sub 0 (bt % q)) := by
    unfold MessageB.b_with_predefined_randomness
    rw [if_neg (by simp [MessageA.a_with_predefined_randomness]),
      if_neg (by simp [hall])]
    simp only [MessageA.a_with_predefined_randomness]
    rw [hca, hcb]
    rfl
  have hshare : Paillier.decrypt dk (a * b + bt) = a * b + bt := by
    unfold Paillier.decrypt
    rw [hk]
    exact Nat.mod_eq_of_lt hnw
  have hgroup : GE.add (GE.mulScalar (DLogProof.prove b).pk a)
      (DLogProof.prove (bt % q)).pk
      = GE.mulScalar GE.generator
        (ECScalar.ofBigInt (Paillier.decrypt dk (a * b + bt))) := by
    rw [hshare]
    unfold DLogProof.prove GE.mulScalar GE.add GE.generator ECScalar.ofBigInt
    simp only [one_mul]
    rw [Nat.mod_mod_of_dvd _ dvd_rfl, Nat.mod_mod_of_dvd _ dvd_rfl,
      Nat.mod_mul_mod, ← Nat.add_mod, Nat.mul_comm b a]
  have hv : MessageB.verify_proofs_get_alpha
      (MessageB.mk (a * b + bt) (DLogProof.prove b) (DLogProof.prove (bt % q))) dk a
      = Except.ok ((a * b + bt) % q, a * b + bt) := by
    simp only [MessageB.verify_proofs_get_alpha]
    rw [if_pos ⟨rfl, rfl, hgroup⟩, hshare]
    rfl
  refine ⟨_, _, _, _, hok, hv, ?_⟩
  unfold FE.sub
  rw [Nat.mod_mod_of_dvd _ dvd_rfl, Nat.zero_add]
  have hle : bt % q ≤ q := le_of_lt (Nat.mod_lt bt q_pos)
  have h1 : (a * b + bt) % q + (q - bt % q) % q
      ≡ a * b + bt + (q - bt % q) [MOD q] :=
    (Nat.mod_modEq _ _).add (Nat.mod_modEq _ _)
  have h2 : a * b + bt + (q - bt % q)
      ≡ a * b + bt % q + (q - bt % q) [MOD q] :=
    Nat.ModEq.add_right _ (Nat.ModEq.add_left _ (Nat.mod_modEq bt q).symm)
  have h3 : a * b + bt % q + (q - bt % q) = a * b + q := by
    rw [Nat.add_assoc, Nat.add_sub_cancel' hle]
  have h4 : a * b + q ≡ a * b [MOD q] := by
    have hq0 : q ≡ 0 [MOD q] := Nat.modEq_zero_iff_dvd.mpr (dvd_refl q)
    calc a * b + q ≡ a * b + 0 [MOD q] := Nat.ModEq.add_left _ hq0
      _ = a * b := Nat.add_zero _
  have h5 : a * b + bt % q + (q - bt % q) ≡ a * b [MOD q] := by
    rw [h3]
    exact h4
  exact h1.trans (h2.trans h5)

/-- Witness for C1 at the pinned inputs a = 3, b = 5, beta_tag = 11 and a
keypair of common modulus q + 7. -/
theorem mta_honest_exchange_correct_witness :
    ∃ m_b beta alpha share,
      MessageB.b_with_predefined_randomness 5 (EncryptionKey.mk (q + 7))
          (MessageA.a_with_predefined_randomness 3 (EncryptionKey.mk (q + 7)) 2 [])
          4 11 []
        = Except.ok (m_b, beta) ∧
      MessageB.verify_proofs_get_alpha m_b (DecryptionKey.mk (q + 7)) 3
        = Except.ok (alpha, share) ∧
      (alpha + beta) % q = (3 * 5) % q :=
  mta_honest_exchange_correct 3 5 2 4 11 (EncryptionKey.mk (q + 7))
    (DecryptionKey.mk (q + 7)) [] (by decide) (by decide) (by decide) rfl
    (by decide)

/-- Counterexample to C1 as stated: with the valid scalars a = b = 1, a
keypair whose common modulus q * q + 1 is far above the curve order, and the
blinding value beta_tag = q * q (an acceptable input, below the modulus), the
honest exchange does not satisfy the claim: Message B is built, but the share
extractor rejects it with the invalid-key error, because a * b + beta_tag
wrapped around the encryption modulus in the homomorphic combination, so the
group-equation check fails and no shares are produced at all. -/
theorem mta_exchange_counterexample :
    (1 < q ∧ q < q * q + 1) ∧
    ∃ m_b beta,
      MessageB.b_with_predefined_randomness 1 (EncryptionKey.mk (q * q + 1))
          (MessageA.a_with_predefined_randomness 1 (EncryptionKey.mk (q * q + 1)) 0 [])
          0 (q * q) []
        = Except.ok (m_b, beta) ∧
      MessageB.verify_proofs_get_alpha m_b (DecryptionKey.mk (q * q + 1)) 1
        = Except.error Error.InvalidKey :=
  ⟨⟨by decide, by decide⟩,
    ⟨MessageB.mk 0 (DLogProof.mk 1 true) (DLogProof.mk 0 true), 0, by rfl, by rfl⟩⟩

end Mta
